import Mathlib

/-!
Shallow embedding of the code-assembly stage of the autocxx conversion engine
(`src/engine/src/conversion/api.rs` and `src/engine/src/conversion/codegen.rs`).

The opaque external value types (`Namespace`, `TypeName`, `syn` syntax-tree
items, `AdditionalNeed`) are embedded as concrete Lean types that retain
exactly the structure the assembly stage inspects: namespaces are ordered
path segments, identifiers are strings, and syntax-tree fragments produced
upstream are opaque tagged constructors.  Rust `Vec` becomes `List`,
`HashMap` keyed by namespace becomes an association list, and `HashSet`
becomes a `List` with set-semantic deduplication (`List.dedup`) where the
code collects into a set.
-/

namespace Autocxx

/-- Ordered path segments locating a declaration (the engine's `Namespace`
value type, consumed as an opaque path here). -/
abbrev NSPath := List String

/-- The engine's `TypeName`: a namespace path plus a final identifier. -/
structure TypeName where
  ns : NSPath
  id : String
deriving DecidableEq

/-- `TypeName::get_final_ident`. -/
def TypeName.get_final_ident (t : TypeName) : String := t.id

/-- `TypeName::new(ns, id)`. -/
def TypeName.new (ns : NSPath) (id : String) : TypeName := ⟨ns, id⟩

/-- An opaque method-impl fragment (`syn::ImplItem`), never inspected by this
stage beyond being grouped and re-emitted. -/
structure ImplItem where
  tag : Nat
deriving DecidableEq

/-- Items of the bridge interface's foreign-declaration block
(`syn::ForeignItem`).  The assembly stage constructs type-alias shims and
inclusion directives itself; everything arriving from upstream is an opaque
fragment. -/
inductive ForeignItem where
  | fragment (tag : Nat)
  | ctypeAlias (id : String)
  | includeDirective (header : String)
deriving DecidableEq

/-- `additional_cpp_generator::AdditionalNeed`: a supplementary native-side
generation request.  This stage only ever constructs `CTypeTypedef` needs;
upstream-carried needs are opaque. -/
inductive AdditionalNeed where
  | CTypeTypedef (t : TypeName)
  | other (tag : Nat)
deriving DecidableEq

/-- Host-language syntax-tree items (`syn::Item`) as far as this stage
inspects or constructs them:
  * `mod` — a named module with contents (`ItemMod`);
  * `bridgeMod` — the `#[cxx::bridge] pub mod cxxbridge { ... }` block;
  * `usePlain id` — `pub use cxxbridge::id;`;
  * `useAlias id a` — `pub use cxxbridge::id as a;`;
  * `useSuperCxxbridge` — the `use super::cxxbridge;` preamble of a re-export
    module;
  * `implBlock ty entries` — `impl ty { entries }`;
  * `foreignModVerbatim items` — the verbatim `unsafe extern "C++" { ... }`
    foreign mod produced by `make_foreign_mod_unsafe`;
  * `fragment` — an opaque upstream fragment. -/
inductive Item where
  | mod (name : String) (content : List Item)
  | bridgeMod (content : List Item)
  | usePlain (id : String)
  | useAlias (id : String) (al : String)
  | useSuperCxxbridge
  | implBlock (ty : String) (entries : List ImplItem)
  | foreignModVerbatim (items : List ForeignItem)
  | fragment (tag : Nat)

/-- A named module (`syn::ItemMod`) with bracketed content, as supplied for
the root container. -/
structure ItemMod where
  name : String
  content : List Item

/-- `conversion::api::ConvertError`: why one candidate declaration failed
conversion. -/
inductive ConvertError where
  | NoContent
  | UnsafePODType (detail : String)
  | UnexpectedForeignItem
  | UnexpectedOuterItem
  | UnexpectedItemInMod
  | ComplexTypedefTarget (ty : String)
  | UnexpectedThisType (ns : NSPath) (fn : String)
  | UnsupportedBuiltInType (ty : TypeName)
  | VirtualThisType (ns : NSPath) (fn : String)
  | ConflictingTemplatedArgsWithTypedef (ty : TypeName)

/-- `ConvertError::is_ignorable`: whether the error should be ignored,
skipping the offending item (`matches!(self, VirtualThisType(_, _) |
UnsupportedBuiltInType(_))`). -/
def ConvertError.is_ignorable : ConvertError → Bool
  | .VirtualThisType _ _ => true
  | .UnsupportedBuiltInType _ => true
  | _ => false

/-- `conversion::api::Use`: whether and how a type is exposed in the
end-user re-export mods. -/
inductive Use where
  | Unused
  | Used
  | UsedWithAlias (al : String)
deriving DecidableEq

/-- `conversion::api::Api`: one API description record handed from the
parsing phase to the code generator. -/
structure Api where
  ns : NSPath
  id : String
  use_stmt : Use
  deps : List TypeName
  extern_c_mod_item : Option ForeignItem
  bridge_items : List Item
  global_items : List Item
  additional_cpp : Option AdditionalNeed
  id_for_allowlist : Option String
  bindgen_mod_item : Option Item
  impl_entry : Option ImplItem

/-- `Api::typename`. -/
def Api.typename (a : Api) : TypeName := TypeName.new a.ns a.id

/-- `Api::typename_for_allowlist`: the allow-list override takes precedence,
then the `UsedWithAlias` alias, then the record's own identifier. -/
def Api.typename_for_allowlist (a : Api) : TypeName :=
  let id_for_allowlist :=
    match a.id_for_allowlist with
    | none =>
      match a.use_stmt with
      | .UsedWithAlias al => al
      | _ => a.id
    | some i => i
  TypeName.new a.ns id_for_allowlist

/-- Modelled from the spec: the repository's `known_types::KNOWN_TYPES` table
is not under `src/`.  Per the spec (§4.2 step 4 and the glossary), the table
recognizes which type references are foreign built-in "sized types" — the
sized-integer-style built-ins whose width is platform-defined — all of which
are root-namespace built-in names with pairwise distinct identifiers. -/
def knownCTypes : List TypeName :=
  [TypeName.new [] "c_short", TypeName.new [] "c_ushort",
   TypeName.new [] "c_int", TypeName.new [] "c_uint",
   TypeName.new [] "c_long", TypeName.new [] "c_ulong",
   TypeName.new [] "c_longlong", TypeName.new [] "c_ulonglong"]

/-- Modelled from the spec: `KNOWN_TYPES.is_ctype(ty)` — whether the type
reference requires a foreign-side sized-integer-style typedef shim. -/
def is_ctype (t : TypeName) : Bool := decide (t ∈ knownCTypes)

/-- The per-namespace use-fragment map (`HashMap<Namespace, Vec<Item>>`),
embedded as an association list. -/
abbrev UseMap := List (NSPath × List Item)

/-- `HashMap::get`-style lookup on the association list. -/
def lookupNs : UseMap → NSPath → Option (List Item)
  | [], _ => none
  | p :: rest, ns => if p.1 = ns then some p.2 else lookupNs rest ns

/-- `HashMap::remove`: drop the entry for the key. -/
def eraseNs : UseMap → NSPath → UseMap
  | [], _ => []
  | p :: rest, ns => if p.1 = ns then rest else p :: eraseNs rest ns

/-- First-occurrence deduplication (auxiliary, tracking already-seen keys). -/
def firstDedupAux (seen : List String) : List String → List String
  | [] => []
  | a :: rest =>
    if a ∈ seen then firstDedupAux seen rest
    else a :: firstDedupAux (a :: seen) rest

/-- First-occurrence deduplication of a key list. -/
def firstDedup (l : List String) : List String := firstDedupAux [] l

/-- Modelled from the spec: `namespace_organizer::NamespaceEntries` is not
under `src/`.  Per the spec (§4.2), it is the recursive node
{descriptions terminating at this path, map from next segment to child
node}, built in one pass by grouping on namespace prefixes with within-node
order preserving input order. -/
inductive NamespaceEntries where
  | mk (entries : List Api) (children : List (String × NamespaceEntries))

/-- The descriptions terminating at this node's path. -/
def NamespaceEntries.entries : NamespaceEntries → List Api
  | .mk e _ => e

/-- The map from next path segment to child node. -/
def NamespaceEntries.children : NamespaceEntries → List (String × NamespaceEntries)
  | .mk _ c => c

/-- Modelled from the spec: one grouping pass of `NamespaceEntries::new`,
working on records paired with their namespace suffix below the current
node.  The `fuel` argument only bounds the recursion depth; it is always
called with fuel at least the longest namespace path, so the zero case
(where every remaining suffix is exhausted) groups every remaining record
as terminating here. -/
def buildNsEntries : Nat → List (List String × Api) → NamespaceEntries
  | 0, items =>
    .mk (items.filterMap (fun p => if p.1.isEmpty then some p.2 else none)) []
  | fuel + 1, items =>
    let entries := items.filterMap (fun p => if p.1.isEmpty then some p.2 else none)
    let deeper := items.filterMap (fun p =>
      match p.1 with
      | [] => none
      | seg :: rest => some (seg, rest, p.2))
    let names := firstDedup (deeper.map (fun q => q.1))
    .mk entries (names.map (fun n =>
      (n, buildNsEntries fuel (deeper.filterMap (fun q =>
            if q.1 = n then some q.2 else none)))))

/-- The longest namespace path among the records: a recursion-depth bound. -/
def maxNsLen (apis : List Api) : Nat :=
  (apis.map (fun a => a.ns.length)).foldl Nat.max 0

/-- Modelled from the spec: `NamespaceEntries::new` — group a flat record
list into the recursive namespace structure. -/
def NamespaceEntries.new (apis : List Api) : NamespaceEntries :=
  buildNsEntries (maxNsLen apis) (apis.map (fun a => (a.ns, a)))

/-- Walker fuel sufficient for any tree built from these records: one more
than the depth of the namespace grouping. -/
def nsFuel (apis : List Api) : Nat := maxNsLen apis + 1

/-- `remove_nones`: drop the `None`s of a list of options. -/
def remove_nones {α : Type} (input : List (Option α)) : List α :=
  input.filterMap id

/-- `CodeGenerator::append_child_use_namespace`: at one node of the
namespace grouping, push one re-export per `Used`/`UsedWithAlias` entry
(in entry order), then one nested module per child, seeded with the
`use super::cxxbridge;` preamble and filled recursively.  `fuel` bounds the
recursion depth (the Rust recursion is structural on the finite tree). -/
def append_child_use_namespace : Nat → NamespaceEntries → List Item → List Item
  | 0, _, output_items => output_items
  | fuel + 1, ns_entries, output_items =>
    let output_items := ns_entries.entries.foldl (fun out item =>
      match item.use_stmt with
      | .UsedWithAlias al => out ++ [Item.useAlias item.id al]
      | .Used => out ++ [Item.usePlain item.id]
      | .Unused => out) output_items
    ns_entries.children.foldl (fun out child =>
      out ++ [Item.mod child.1
        (append_child_use_namespace fuel child.2 [Item.useSuperCxxbridge])]) output_items

/-- `CodeGenerator::generate_final_use_statements`. -/
def generate_final_use_statements (input_items : List Api) : List Item :=
  append_child_use_namespace (nsFuel input_items)
    (NamespaceEntries.new input_items) []

/-- `CodeGenerator::append_uses_for_ns`: append the namespace's registered
use-fragments (empty when the namespace has no entry) and consume the map
entry. -/
def append_uses_for_ns (m : UseMap) (items : List Item) (ns : NSPath) :
    List Item × UseMap :=
  ((items ++ (lookupNs m ns).getD []), eraseNs m ns)

/-- `impl_entries_by_type.entry(id).or_default().push(e)`: append the entry
to the group for `id`, creating the group at the end on first sight. -/
def addImplEntry (m : List (String × List ImplItem)) (id : String)
    (e : ImplItem) : List (String × List ImplItem) :=
  match m with
  | [] => [(id, [e])]
  | (k, es) :: rest =>
    if k = id then (k, es ++ [e]) :: rest
    else (k, es) :: addImplEntry rest id e

/-- The body of the child loop of `append_child_bindgen_namespace`: recurse
into the child with a fresh item list, and only when that produced anything,
append the child namespace's use-fragments and push the nested module. -/
def bindgen_child_step (recurse : UseMap → NamespaceEntries → List Item → NSPath → List Item × UseMap)
    (ns : NSPath) (acc : List Item × UseMap) (child : String × NamespaceEntries) :
    List Item × UseMap :=
  let new_ns := ns ++ [child.1]
  let inner := recurse acc.2 child.2 [] new_ns
  if inner.1.isEmpty then (acc.1, inner.2)
  else
    let inner2 := append_uses_for_ns inner.2 inner.1 new_ns
    (acc.1 ++ [Item.mod child.1 inner2.1], inner2.2)

/-- `CodeGenerator::append_child_bindgen_namespace`: at one node, push each
entry's declaration fragment while grouping method-impl fragments by target
identifier, then one merged impl block per group, then the children (each
finalized, use-fragments appended, and pruned when empty).  `fuel` bounds
the recursion depth as for the use-statement walker. -/
def append_child_bindgen_namespace : Nat → UseMap → NamespaceEntries → List Item → NSPath → List Item × UseMap
  | 0, m, _, output_items, _ => (output_items, m)
  | fuel + 1, m, ns_entries, output_items, ns =>
    let folded := ns_entries.entries.foldl
      (fun (acc : List Item × List (String × List ImplItem)) item =>
        let out := acc.1 ++ item.bindgen_mod_item.toList
        match item.impl_entry with
        | some e => (out, addImplEntry acc.2 item.id e)
        | none => (out, acc.2))
      (output_items, [])
    let output_items := folded.2.foldl
      (fun out p => out ++ [Item.implBlock p.1 p.2]) folded.1
    ns_entries.children.foldl
      (bindgen_child_step (append_child_bindgen_namespace fuel) ns)
      (output_items, m)

/-- `CodeGenerator::generate_final_bindgen_mods`: walk the grouping from the
root namespace, then append the root namespace's own use-fragments. -/
def generate_final_bindgen_mods (m : UseMap) (input_items : List Api) :
    List Item × UseMap :=
  let ns : NSPath := []
  let walked := append_child_bindgen_namespace (nsFuel input_items) m
    (NamespaceEntries.new input_items) [] ns
  append_uses_for_ns walked.2 walked.1 ns

/-- The sized-type references needing shims: the union of the records'
dependency sets, filtered to recognized ctypes and collected into a
`HashSet` (set semantics, embedded as `List.dedup`). -/
def ctypesOf (deps : List (List TypeName)) : List TypeName :=
  ((deps.flatMap id).filter is_ctype).dedup

/-- `CodeGenerator::append_ctype_information`: for each collected ctype,
push one bridge-interface type alias (`type id = autocxx::id;`) and one
`CTypeTypedef` supplementary need. -/
def append_ctype_information (deps : List (List TypeName))
    (extern_c_mod_items : List ForeignItem)
    (additional_cpp_needs : List AdditionalNeed) :
    List ForeignItem × List AdditionalNeed :=
  (ctypesOf deps).foldl
    (fun (acc : List ForeignItem × List AdditionalNeed) ctype =>
      (acc.1 ++ [ForeignItem.ctypeAlias ctype.get_final_ident],
       acc.2 ++ [AdditionalNeed.CTypeTypedef ctype]))
    (extern_c_mod_items, additional_cpp_needs)

/-- `CodeGenerator::build_include_foreign_items`: one inclusion directive
per configured header, chained with one for the generated supplementary
header `autocxxgen.h` exactly when there are supplementary needs. -/
def build_include_foreign_items (include_list : List String)
    (has_additional_cpp_needs : Bool) : List ForeignItem :=
  let extra_inclusion :=
    if has_additional_cpp_needs then some "autocxxgen.h" else none
  (include_list ++ extra_inclusion.toList).map
    (fun inc => ForeignItem.includeDirective inc)

/-- `CodeGenerator::make_foreign_mod_unsafe` (kept verbatim in the source as
an `Item::Verbatim` wrapping the foreign mod). -/
def make_foreign_mod (ifm : List ForeignItem) : Item :=
  Item.foreignModVerbatim ifm

/-- `CodegenResults`: the final item list plus the supplementary needs. -/
structure CodegenResults where
  items : List Item
  additional_cpp_needs : List AdditionalNeed

/-- `CodeGenerator::codegen`, the single-shot assembly pipeline: re-export
tree, declaration tree, order-preserving partition of the records' output
fragments, ctype shim injection, inclusion directives, the bridge interface
block, and the final ordering. -/
def codegen (all_apis : List Api) (include_list : List String)
    (use_stmts_by_mod : UseMap) (bindgen_mod : ItemMod) : CodegenResults :=
  let use_statements := generate_final_use_statements all_apis
  let bindgen_root_items := (generate_final_bindgen_mods use_stmts_by_mod all_apis).1
  let extern_c_mod_items :=
    remove_nones (all_apis.map (fun api => api.extern_c_mod_item))
  let all_items := (all_apis.map (fun api => api.global_items)).flatten
  let bridge_items := (all_apis.map (fun api => api.bridge_items)).flatten
  let additional_cpp_needs :=
    remove_nones (all_apis.map (fun api => api.additional_cpp))
  let deps := all_apis.map (fun api => api.deps)
  let appended := append_ctype_information deps extern_c_mod_items additional_cpp_needs
  let extern_c_mod_items := appended.1
  let additional_cpp_needs := appended.2
  let extern_c_mod_items := extern_c_mod_items ++
    build_include_foreign_items include_list (!additional_cpp_needs.isEmpty)
  let bridge_items := bridge_items ++ [make_foreign_mod extern_c_mod_items]
  let all_items :=
    if !bindgen_root_items.isEmpty then
      all_items ++ [Item.mod bindgen_mod.name [Item.mod "root" bindgen_root_items]]
    else all_items
  let all_items := all_items ++ [Item.bridgeMod bridge_items]
  let all_items := all_items ++ use_statements
  { items := all_items, additional_cpp_needs := additional_cpp_needs }

/-- `CodeGenerator::generate_code`: construct the single-use generator and
run `codegen`. -/
def generate_code (all_apis : List Api) (include_list : List String)
    (use_stmts_by_mod : UseMap) (bindgen_mod : ItemMod) : CodegenResults :=
  codegen all_apis include_list use_stmts_by_mod bindgen_mod

/-! Specification-side descriptions of what the walkers emit, compared
against the transcribed code below. -/

/-- The re-export item a single record gives rise to: nothing for `Unused`,
a plain re-export for `Used`, an aliased one for `UsedWithAlias`. -/
def use_item_for (api : Api) : Option Item :=
  match api.use_stmt with
  | .Unused => none
  | .Used => some (Item.usePlain api.id)
  | .UsedWithAlias al => some (Item.useAlias api.id al)

/-- The target identifiers of the method-impl groups of one namespace node,
in first-encounter order. -/
def impl_ids (entries : List Api) : List String :=
  firstDedup ((entries.filter (fun a => a.impl_entry.isSome)).map (fun a => a.id))

/-- The merged method-impl entries for one target identifier, in encounter
order. -/
def impl_entries_for (entries : List Api) (i : String) : List ImplItem :=
  entries.filterMap (fun a => if a.id = i then a.impl_entry else none)

/-! The assembly pipeline in closed form. -/

/-- The supplementary-needs list after sized-type shim injection. -/
def final_needs (apis : List Api) : List AdditionalNeed :=
  remove_nones (apis.map (fun a => a.additional_cpp))
    ++ (ctypesOf (apis.map (fun a => a.deps))).map AdditionalNeed.CTypeTypedef

/-- The bridge interface's foreign-declaration block: the records' foreign
fragments, then the ctype aliases, then the inclusion directives. -/
def final_foreign_items (apis : List Api) (include_list : List String) :
    List ForeignItem :=
  remove_nones (apis.map (fun a => a.extern_c_mod_item))
    ++ (ctypesOf (apis.map (fun a => a.deps))).map
         (fun c => ForeignItem.ctypeAlias c.get_final_ident)
    ++ build_include_foreign_items include_list (!(final_needs apis).isEmpty)

/-- The assembled bridge-interface block. -/
def final_bridge_block (apis : List Api) (include_list : List String) :
    Item :=
  Item.bridgeMod ((apis.map (fun a => a.bridge_items)).flatten
    ++ [make_foreign_mod (final_foreign_items apis include_list)])

/-! Concrete records for counterexamples, scenarios and witnesses. -/

/-- A record with no fragments, no dependencies, no re-export. -/
def apiBase : Api :=
  { ns := [], id := "X", use_stmt := .Unused, deps := [],
    extern_c_mod_item := none, bridge_items := [], global_items := [],
    additional_cpp := none, id_for_allowlist := none,
    bindgen_mod_item := none, impl_entry := none }

/-- A record in namespace `a` whose disposition is `Unused`. -/
def apiUnusedA : Api := { apiBase with ns := ["a"] }

/-- A record in namespace `ns1` carrying one declaration fragment. -/
def apiNs1 : Api :=
  { apiBase with
    ns := ["ns1"]
    id := "T"
    bindgen_mod_item := some (Item.fragment 10) }

/-- A record in namespace `ns1` carrying no fragments at all. -/
def apiNs1Empty : Api := { apiBase with ns := ["ns1"] }

/-- A record depending on the sized type `c_int`. -/
def apiDepInt : Api := { apiBase with deps := [TypeName.new [] "c_int"] }

/-- A record carrying one opaque supplementary need. -/
def apiWithNeed : Api := { apiBase with additional_cpp := some (.other 0) }

/-- A second record depending on `c_int`, in namespace `a`. -/
def apiDepIntA : Api := { apiDepInt with ns := ["a"] }

/-- Whether a foreign-declaration item is an inclusion directive. -/
def ForeignItem.is_include : ForeignItem → Bool
  | .includeDirective _ => true
  | _ => false

/-- Whether an optional foreign-declaration item is an inclusion
directive. -/
def opt_is_include : Option ForeignItem → Bool
  | some fi => fi.is_include
  | none => false

/-- The relation between a use-fragment map and the same map extended by an
empty entry for one (previously absent) namespace; `eq` after that entry has
been consumed. -/
def mapExt (ns : NSPath) (m1 m2 : UseMap) : Prop :=
  m2 = m1 ∨ (m2 = m1 ++ [(ns, [])] ∧ lookupNs m1 ns = none)

/-! Generic list helpers. -/

/-- Folding an append-one-element step is mapping. -/
theorem foldl_append_singleton {α β : Type} (l : List α) (f : α → β)
    (acc : List β) :
    l.foldl (fun out x => out ++ [f x]) acc = acc ++ l.map f := by
  induction l generalizing acc with
  | nil => simp
  | cons a l ih => simp [ih]

/-- A predicate holding at exactly one element of a duplicate-free list is
counted once. -/
theorem countP_eq_one_of_unique {α : Type} (l : List α) (p : α → Bool)
    (a : α) (hnd : l.Nodup) (ha : a ∈ l) (hpa : p a = true)
    (huniq : ∀ b ∈ l, p b = true → b = a) : l.countP p = 1 := by
  induction l with
  | nil => cases ha
  | cons x l ih =>
    rcases List.mem_cons.mp ha with rfl | hmem
    · have hrest : l.countP p = 0 := by
        rw [List.countP_eq_zero]
        intro b hb hpb
        exact absurd (huniq b (List.mem_cons_of_mem _ hb) hpb ▸ hb)
          (List.nodup_cons.mp hnd).1
      rw [List.countP_cons, hrest, hpa]
      rfl
    · have hxa : x ≠ a := fun hxa => (List.nodup_cons.mp hnd).1 (hxa ▸ hmem)
      have hpx : p x = false := by
        rcases hp : p x with _ | _
        · rfl
        · exact absurd (huniq x (List.mem_cons_self x l) hp) hxa
      rw [List.countP_cons, hpx]
      have := ih (List.nodup_cons.mp hnd).2 hmem
        (fun b hb hpb => huniq b (List.mem_cons_of_mem _ hb) hpb)
      simp [this]

/-! The re-export walker characterized against `use_item_for`. -/

/-- The per-entry loop of `append_child_use_namespace` emits exactly the
`use_item_for` items, in entry order. -/
theorem foldl_use_items (entries : List Api) (out : List Item) :
    entries.foldl (fun out item =>
      match item.use_stmt with
      | .UsedWithAlias al => out ++ [Item.useAlias item.id al]
      | .Used => out ++ [Item.usePlain item.id]
      | .Unused => out) out
    = out ++ entries.filterMap use_item_for := by
  induction entries generalizing out with
  | nil => simp
  | cons a rest ih =>
    rcases h : a.use_stmt with _ | _ | al <;>
      simp [List.foldl_cons, h, use_item_for, ih]

/-- One unfolding of `append_child_use_namespace`: the node's own
re-exports in entry order, then one nested module per child. -/
theorem append_child_use_namespace_succ (fuel : Nat) (ne : NamespaceEntries)
    (out : List Item) :
    append_child_use_namespace (fuel + 1) ne out
      = out ++ ne.entries.filterMap use_item_for
          ++ ne.children.map (fun c =>
               Item.mod c.1
                 (append_child_use_namespace fuel c.2 [Item.useSuperCxxbridge])) := by
  cases ne with
  | mk entries children =>
    show children.foldl _ (entries.foldl _ out) = _
    rw [foldl_use_items, foldl_append_singleton]
    simp [NamespaceEntries.entries, NamespaceEntries.children]

/-- The walker only ever appends to the list it is handed. -/
theorem append_child_use_namespace_prefix (fuel : Nat) (ne : NamespaceEntries)
    (out : List Item) :
    ∃ rest, append_child_use_namespace fuel ne out = out ++ rest := by
  cases fuel with
  | zero => exact ⟨[], by simp [append_child_use_namespace]⟩
  | succ fuel =>
    exact ⟨_, by rw [append_child_use_namespace_succ, List.append_assoc]⟩

/-! ### Claim C1 -/

/-- C1: `is_ignorable` returns `true` exactly on the `VirtualThisType` and
`UnsupportedBuiltInType` variants of `ConvertError`; every other variant is
not ignorable. -/
theorem convert_error_is_ignorable_iff (e : ConvertError) :
    e.is_ignorable = true ↔
      ((∃ ns fn, e = ConvertError.VirtualThisType ns fn) ∨
       (∃ ty, e = ConvertError.UnsupportedBuiltInType ty)) := by
  cases e <;> simp only [ConvertError.is_ignorable] <;>
    constructor <;> intro h
  case VirtualThisType ns fn => exact Or.inl ⟨ns, fn, rfl⟩
  case UnsupportedBuiltInType ty => exact Or.inr ⟨ty, rfl⟩
  all_goals first
    | rfl
    | trivial
    | (rcases h with ⟨ns, fn, h⟩ | ⟨ty, h⟩ <;> cases h)

/-! ### Claim C9 -/

/-- C9: `typename_for_allowlist` pairs the record's namespace with the
allow-list override when present, else with the alias when the disposition
is `UsedWithAlias`, else with the record's own identifier. -/
theorem typename_for_allowlist_precedence (a : Api) (i al : String) :
    ({ a with id_for_allowlist := some i } : Api).typename_for_allowlist
        = TypeName.new a.ns i
    ∧ ({ a with
          id_for_allowlist := none
          use_stmt := Use.UsedWithAlias al } : Api).typename_for_allowlist
        = TypeName.new a.ns al
    ∧ ({ a with
          id_for_allowlist := none
          use_stmt := Use.Used } : Api).typename_for_allowlist
        = TypeName.new a.ns a.id
    ∧ ({ a with
          id_for_allowlist := none
          use_stmt := Use.Unused } : Api).typename_for_allowlist
        = TypeName.new a.ns a.id :=
  ⟨rfl, rfl, rfl, rfl⟩

/-! ### Claim C4 -/

/-- C4: at every node of the re-export walk, `Unused` records emit nothing,
`Used` records emit a plain re-export of their identifier, `UsedWithAlias`
records emit a re-export bound exactly to the alias, and the emitted
re-exports appear in the input order of the records (the `filterMap`). -/
theorem use_namespace_emission (fuel : Nat) (ne : NamespaceEntries)
    (out : List Item) (a : Api) (al : String) :
    append_child_use_namespace (fuel + 1) ne out
      = out ++ ne.entries.filterMap use_item_for
          ++ ne.children.map (fun c =>
               Item.mod c.1
                 (append_child_use_namespace fuel c.2 [Item.useSuperCxxbridge]))
    ∧ use_item_for { a with use_stmt := Use.Unused } = none
    ∧ use_item_for { a with use_stmt := Use.Used } = some (Item.usePlain a.id)
    ∧ use_item_for { a with use_stmt := Use.UsedWithAlias al }
        = some (Item.useAlias a.id al) :=
  ⟨append_child_use_namespace_succ fuel ne out, rfl, rfl, rfl⟩

/-! ### Claim C7 -/

/-- C7 counterexample: a single record in namespace `a` with disposition
`Unused` emits no re-export anywhere, yet the re-export tree still contains
a nested module for `a` (holding only the scope preamble): modules without
re-exports or qualifying descendants are not omitted. -/
theorem use_namespace_empty_module_emitted :
    generate_final_use_statements [apiUnusedA]
        = [Item.mod "a" [Item.useSuperCxxbridge]]
    ∧ apiUnusedA.use_stmt = Use.Unused :=
  ⟨rfl, rfl⟩

/-- C7 amended: a nested module is emitted for every child of a namespace
node — one per child, regardless of the dispositions of the records below
it — and each such module starts with the `use super::cxxbridge;` preamble;
no module is pruned for lacking re-exports. -/
theorem use_namespace_module_per_child (fuel : Nat) (ne : NamespaceEntries)
    (out : List Item) (c : NamespaceEntries) :
    append_child_use_namespace (fuel + 1) ne out
      = out ++ ne.entries.filterMap use_item_for
          ++ ne.children.map (fun ch =>
               Item.mod ch.1
                 (append_child_use_namespace fuel ch.2 [Item.useSuperCxxbridge]))
    ∧ (append_child_use_namespace fuel c [Item.useSuperCxxbridge]).head?
        = some Item.useSuperCxxbridge := by
  refine ⟨append_child_use_namespace_succ fuel ne out, ?_⟩
  obtain ⟨rest, h⟩ :=
    append_child_use_namespace_prefix fuel c [Item.useSuperCxxbridge]
  rw [h]
  rfl

/-! Properties of first-occurrence deduplication, used to characterize the
method-impl grouping. -/

/-- Appending one key to the input appends it to the deduplicated output
exactly when it is new. -/
theorem firstDedupAux_append_singleton (xs : List String) (y : String) :
    ∀ seen, firstDedupAux seen (xs ++ [y]) =
      firstDedupAux seen xs ++ (if y ∈ seen ∨ y ∈ xs then [] else [y]) := by
  induction xs with
  | nil =>
    intro seen
    by_cases h : y ∈ seen <;> simp [firstDedupAux, h]
  | cons a xs ih =>
    intro seen
    by_cases ha : a ∈ seen
    · rw [List.cons_append]
      show firstDedupAux seen (a :: (xs ++ [y])) = _
      rw [firstDedupAux, if_pos ha, firstDedupAux, if_pos ha, ih seen]
      by_cases hy : y = a
      · subst hy
        simp [ha]
      · simp [hy]
    · rw [List.cons_append]
      show firstDedupAux seen (a :: (xs ++ [y])) = _
      rw [firstDedupAux, if_neg ha, firstDedupAux, if_neg ha, ih (a :: seen)]
      by_cases hy : y = a
      · subst hy
        simp
      · simp [hy, List.mem_cons]

/-- Membership in the deduplicated list. -/
theorem mem_firstDedupAux (l : List String) (x : String) :
    ∀ seen, x ∈ firstDedupAux seen l ↔ x ∈ l ∧ x ∉ seen := by
  induction l with
  | nil => intro seen; simp [firstDedupAux]
  | cons a l ih =>
    intro seen
    by_cases ha : a ∈ seen
    · rw [firstDedupAux, if_pos ha, ih seen]
      constructor
      · exact fun ⟨h1, h2⟩ => ⟨List.mem_cons_of_mem _ h1, h2⟩
      · rintro ⟨h1, h2⟩
        rcases List.mem_cons.mp h1 with rfl | h1
        · exact absurd ha h2
        · exact ⟨h1, h2⟩
    · rw [firstDedupAux, if_neg ha]
      constructor
      · intro h
        rcases List.mem_cons.mp h with rfl | h
        · exact ⟨List.mem_cons_self _ _, ha⟩
        · have := (ih (a :: seen)).mp h
          exact ⟨List.mem_cons_of_mem _ this.1,
            fun hx => this.2 (List.mem_cons_of_mem _ hx)⟩
      · rintro ⟨h1, h2⟩
        rcases List.mem_cons.mp h1 with rfl | h1
        · exact List.mem_cons_self _ _
        · by_cases hxa : x = a
          · exact hxa ▸ List.mem_cons_self _ _
          · exact List.mem_cons_of_mem _
              ((ih (a :: seen)).mpr
                ⟨h1, fun hx => (List.mem_cons.mp hx).elim hxa h2⟩)

/-- The deduplicated list has no duplicates. -/
theorem firstDedupAux_nodup (l : List String) :
    ∀ seen, (firstDedupAux seen l).Nodup := by
  induction l with
  | nil => intro seen; simp [firstDedupAux]
  | cons a l ih =>
    intro seen
    by_cases ha : a ∈ seen
    · rw [firstDedupAux, if_pos ha]; exact ih seen
    · rw [firstDedupAux, if_neg ha]
      refine List.nodup_cons.mpr ⟨?_, ih (a :: seen)⟩
      intro hmem
      exact ((mem_firstDedupAux l a (a :: seen)).mp hmem).2
        (List.mem_cons_self _ _)

/-- Membership in `firstDedup` is membership in the input. -/
theorem mem_firstDedup (l : List String) (x : String) :
    x ∈ firstDedup l ↔ x ∈ l := by
  rw [firstDedup, mem_firstDedupAux]
  simp

/-- `firstDedup` is duplicate-free. -/
theorem firstDedup_nodup (l : List String) : (firstDedup l).Nodup :=
  firstDedupAux_nodup l []

/-- Appending one key to the input appends it to `firstDedup` exactly when
it is new. -/
theorem firstDedup_append_singleton (xs : List String) (y : String) :
    firstDedup (xs ++ [y])
      = firstDedup xs ++ (if y ∈ xs then [] else [y]) := by
  rw [firstDedup, firstDedupAux_append_singleton]
  simp [firstDedup]

/-! The method-impl grouping (`impl_entries_by_type`) characterized. -/

/-- A group identifier occurs iff some record with a method-impl fragment
has that identifier. -/
theorem mem_impl_ids (es : List Api) (i : String) :
    i ∈ impl_ids es ↔ ∃ a ∈ es, a.impl_entry.isSome = true ∧ a.id = i := by
  rw [impl_ids, mem_firstDedup]
  simp only [List.mem_map, List.mem_filter]
  constructor
  · rintro ⟨a, ⟨hmem, hsome⟩, rfl⟩
    exact ⟨a, hmem, hsome, rfl⟩
  · rintro ⟨a, hmem, hsome, rfl⟩
    exact ⟨a, ⟨hmem, hsome⟩, rfl⟩

/-- The group identifiers are pairwise distinct. -/
theorem impl_ids_nodup (es : List Api) : (impl_ids es).Nodup :=
  firstDedup_nodup _

/-- An identifier outside the group list has no merged entries. -/
theorem impl_entries_for_of_not_mem (es : List Api) (i : String)
    (h : i ∉ impl_ids es) : impl_entries_for es i = [] := by
  rw [impl_entries_for, List.filterMap_eq_nil_iff]
  intro a ha
  by_cases hid : a.id = i
  · rw [if_pos hid]
    rcases he : a.impl_entry with _ | e
    · rfl
    · exact absurd ((mem_impl_ids es i).mpr ⟨a, ha, by simp [he], hid⟩) h
  · rw [if_neg hid]

/-- Appending one record extends each group list by at most that record's
fragment. -/
theorem impl_entries_for_append_singleton (es : List Api) (a : Api)
    (i : String) :
    impl_entries_for (es ++ [a]) i
      = impl_entries_for es i
          ++ (if a.id = i then a.impl_entry.toList else []) := by
  rw [impl_entries_for, List.filterMap_append, impl_entries_for]
  congr 1
  by_cases hid : a.id = i <;>
    rcases he : a.impl_entry with _ | e <;> simp [hid, he]

/-- Appending one record extends the group identifiers by its identifier
exactly when the record carries a fragment under a new identifier. -/
theorem impl_ids_append_singleton (es : List Api) (a : Api) :
    impl_ids (es ++ [a])
      = impl_ids es
          ++ (if a.impl_entry.isSome = true ∧ a.id ∉ impl_ids es
              then [a.id] else []) := by
  rcases hs : a.impl_entry with _ | e
  · rw [impl_ids, List.filter_append]
    have : (([a] : List Api).filter (fun a => a.impl_entry.isSome)) = [] := by
      simp [hs]
    rw [this, List.append_nil, ← impl_ids]
    simp [hs]
  · rw [impl_ids, List.filter_append]
    have : (([a] : List Api).filter (fun a => a.impl_entry.isSome)) = [a] := by
      simp [hs]
    rw [this, List.map_append]
    show firstDedup (_ ++ [a.id]) = _
    rw [firstDedup_append_singleton, ← impl_ids]
    have hmem : (a.id ∈ (es.filter (fun a => a.impl_entry.isSome)).map
        (fun a => a.id)) ↔ a.id ∈ impl_ids es := (mem_firstDedup _ _).symm
    by_cases h : a.id ∈ impl_ids es
    · rw [if_pos (hmem.mpr h)]
      simp [h, hs]
    · rw [if_neg (fun hx => h (hmem.mp hx))]
      simp [h, hs]

/-- Pushing into the grouping map updates the unique group of the pushed
identifier, or opens a new group at the end. -/
theorem addImplEntry_map (ids : List String) (f : String → List ImplItem)
    (id : String) (e : ImplItem) (hnd : ids.Nodup) :
    addImplEntry (ids.map (fun i => (i, f i))) id e
      = if id ∈ ids then
          ids.map (fun i => (i, if i = id then f i ++ [e] else f i))
        else ids.map (fun i => (i, f i)) ++ [(id, [e])] := by
  induction ids with
  | nil => simp [addImplEntry]
  | cons a ids ih =>
    rcases List.nodup_cons.mp hnd with ⟨hna, hnd'⟩
    by_cases hai : a = id
    · subst hai
      rw [List.map_cons, addImplEntry, if_pos rfl,
        if_pos (List.mem_cons_self _ _), List.map_cons, if_pos rfl]
      congr 1
      exact (List.map_congr_left (fun i hi => by
        have : i ≠ a := fun h => hna (h ▸ hi)
        simp [this])).symm
    · rw [List.map_cons, addImplEntry, if_neg hai, ih hnd']
      by_cases hmem : id ∈ ids
      · rw [if_pos hmem, if_pos (List.mem_cons_of_mem _ hmem), List.map_cons]
        congr 1
        simp [hai]
      · rw [if_neg hmem,
          if_neg (fun h => (List.mem_cons.mp h).elim (fun h => hai h.symm) hmem)]
        simp

/-- The grouping fold of `append_child_bindgen_namespace` builds exactly
one group per distinct fragment-bearing identifier, each holding that
identifier's fragments in encounter order. -/
theorem grouped_eq (es : List Api) :
    es.foldl (fun g item =>
        match item.impl_entry with
        | some e => addImplEntry g item.id e
        | none => g) ([] : List (String × List ImplItem))
      = (impl_ids es).map (fun i => (i, impl_entries_for es i)) := by
  induction es using List.reverseRecOn with
  | nil => simp [impl_ids, impl_entries_for, firstDedup, firstDedupAux]
  | append_singleton es a ih =>
    rw [List.foldl_append]
    simp only [List.foldl_cons, List.foldl_nil, ih]
    rcases he : a.impl_entry with _ | e
    · simp only [he]
      rw [impl_ids_append_singleton]
      simp only [he, Option.isSome_none, Bool.false_eq_true, false_and,
        if_neg, ite_false]
      rw [List.append_nil]
      refine (List.map_congr_left (fun i _ => ?_)).symm
      rw [impl_entries_for_append_singleton]
      by_cases hid : a.id = i <;> simp [hid, he]
    · simp only [he]
      rw [addImplEntry_map _ _ _ _ (impl_ids_nodup es)]
      by_cases hmem : a.id ∈ impl_ids es
      · rw [if_pos hmem, impl_ids_append_singleton]
        simp only [hmem, not_true_eq_false, and_false, ite_false,
          List.append_nil]
        refine (List.map_congr_left (fun i hi => ?_)).symm
        rw [impl_entries_for_append_singleton]
        by_cases hid : i = a.id
        · subst hid
          simp [he]
        · have : a.id ≠ i := fun h => hid h.symm
          simp [hid, this]
      · rw [if_neg hmem, impl_ids_append_singleton]
        simp only [he, Option.isSome_some, hmem, not_false_eq_true, and_self,
          if_pos, ite_true]
        rw [List.map_append]
        congr 1
        · refine (List.map_congr_left (fun i hi => ?_)).symm
          rw [impl_entries_for_append_singleton]
          have : a.id ≠ i := fun h => hmem (h ▸ hi)
          simp [this]
        · rw [List.map_cons, List.map_nil]
          rw [impl_entries_for_append_singleton,
            impl_entries_for_of_not_mem es _ hmem]
          simp [he]

/-! The declaration-tree walker characterized. -/

/-- The entry loop of `append_child_bindgen_namespace` splits into the
declaration fragments (in entry order) and the grouping fold. -/
theorem bindgen_entry_fold (entries : List Api) (out : List Item)
    (g : List (String × List ImplItem)) :
    entries.foldl
      (fun (acc : List Item × List (String × List ImplItem)) item =>
        let o := acc.1 ++ item.bindgen_mod_item.toList
        match item.impl_entry with
        | some e => (o, addImplEntry acc.2 item.id e)
        | none => (o, acc.2))
      (out, g)
    = (out ++ entries.flatMap (fun a => a.bindgen_mod_item.toList),
       entries.foldl (fun g item =>
         match item.impl_entry with
         | some e => addImplEntry g item.id e
         | none => g) g) := by
  induction entries generalizing out g with
  | nil => simp
  | cons a es ih =>
    simp only [List.foldl_cons]
    rcases he : a.impl_entry with _ | e <;> simp only [he] <;> rw [ih] <;>
      simp

/-- One child step only ever appends to the accumulated items. -/
theorem bindgen_child_step_prefix
    (r : UseMap → NamespaceEntries → List Item → NSPath → List Item × UseMap)
    (ns : NSPath) (acc : List Item × UseMap)
    (child : String × NamespaceEntries) :
    ∃ add m2, bindgen_child_step r ns acc child = (acc.1 ++ add, m2) := by
  rw [bindgen_child_step]
  by_cases h : (r acc.2 child.2 [] (ns ++ [child.1])).1.isEmpty
  · refine ⟨[], (r acc.2 child.2 [] (ns ++ [child.1])).2, ?_⟩
    rw [if_pos h]
    simp
  · refine ⟨[Item.mod child.1
        (append_uses_for_ns (r acc.2 child.2 [] (ns ++ [child.1])).2
          (r acc.2 child.2 [] (ns ++ [child.1])).1 (ns ++ [child.1])).1],
      (append_uses_for_ns (r acc.2 child.2 [] (ns ++ [child.1])).2
          (r acc.2 child.2 [] (ns ++ [child.1])).1 (ns ++ [child.1])).2, ?_⟩
    rw [if_neg h]

/-- The child loop only ever appends to the accumulated items. -/
theorem bindgen_children_fold_prefix
    (r : UseMap → NamespaceEntries → List Item → NSPath → List Item × UseMap)
    (ns : NSPath) (children : List (String × NamespaceEntries)) :
    ∀ (o : List Item) (m : UseMap),
      ∃ rest m2,
        children.foldl (bindgen_child_step r ns) (o, m) = (o ++ rest, m2) := by
  induction children with
  | nil => exact fun o m => ⟨[], m, by simp⟩
  | cons c cs ih =>
    intro o m
    obtain ⟨add, m1, hstep⟩ := bindgen_child_step_prefix r ns (o, m) c
    obtain ⟨rest, m2, hrec⟩ := ih (o ++ add) m1
    exact ⟨add ++ rest, m2,
      by rw [List.foldl_cons, hstep, hrec, List.append_assoc]⟩

/-! ### Claim C5 -/

/-- C5: at every node of the declaration-tree walk, all method-impl
fragments of records sharing an identifier are merged into exactly one impl
block (the group identifiers are duplicate-free), each block's entries
appear in original encounter order (`impl_entries_for` is an order-
preserving `filterMap` restricted to that identifier), and fragments of
differing identifiers never share a block. -/
theorem bindgen_impl_merging (fuel : Nat) (m : UseMap)
    (ne : NamespaceEntries) (out : List Item) (ns : NSPath) :
    ∃ rest m2,
      append_child_bindgen_namespace (fuel + 1) m ne out ns
        = (out ++ ne.entries.flatMap (fun a => a.bindgen_mod_item.toList)
               ++ (impl_ids ne.entries).map
                    (fun i => Item.implBlock i (impl_entries_for ne.entries i))
               ++ rest,
           m2)
      ∧ (impl_ids ne.entries).Nodup := by
  cases ne with
  | mk entries children =>
    simp only [append_child_bindgen_namespace, NamespaceEntries.entries,
      NamespaceEntries.children]
    rw [bindgen_entry_fold, grouped_eq, foldl_append_singleton]
    obtain ⟨rest, m2, hfold⟩ :=
      bindgen_children_fold_prefix (append_child_bindgen_namespace fuel) ns
        children
        ((out ++ entries.flatMap (fun a => a.bindgen_mod_item.toList))
          ++ ((impl_ids entries).map
                (fun i => (i, impl_entries_for entries i))).map
              (fun p => Item.implBlock p.1 p.2))
        m
    rw [hfold]
    refine ⟨rest, m2, ?_, impl_ids_nodup entries⟩
    rw [List.map_map]
    simp [List.append_assoc, Function.comp]

/-! ### Claim C8 -/

/-- C8: in declaration-tree generation a child module's content is the
finalized recursive content followed by the namespace's registered
use-fragments (so use-fragments come after all declarations and child
modules), a child whose content is empty is pruned before any use-fragment
is appended, and concretely one record in namespace `ns1` with a
declaration fragment plus a registered use-fragment for `ns1` yields the
module `ns1` holding the fragment then the use-fragment, while a fragment-
free record yields no module at all. -/
theorem bindgen_uses_after_children (fuel : Nat) (ns : NSPath)
    (acc : List Item × UseMap) (child : String × NamespaceEntries) :
    bindgen_child_step (append_child_bindgen_namespace fuel) ns acc child
      = (if (append_child_bindgen_namespace fuel acc.2 child.2 []
              (ns ++ [child.1])).1.isEmpty then
          (acc.1,
           (append_child_bindgen_namespace fuel acc.2 child.2 []
              (ns ++ [child.1])).2)
        else
          (acc.1 ++ [Item.mod child.1
              ((append_child_bindgen_namespace fuel acc.2 child.2 []
                  (ns ++ [child.1])).1
                ++ (lookupNs (append_child_bindgen_namespace fuel acc.2
                      child.2 [] (ns ++ [child.1])).2
                      (ns ++ [child.1])).getD [])],
           eraseNs (append_child_bindgen_namespace fuel acc.2 child.2 []
              (ns ++ [child.1])).2 (ns ++ [child.1])))
    ∧ (generate_final_bindgen_mods [(["ns1"], [Item.fragment 20])]
          [apiNs1]).1
        = [Item.mod "ns1" [Item.fragment 10, Item.fragment 20]]
    ∧ (generate_final_bindgen_mods [(["ns1"], [Item.fragment 20])]
          [apiNs1Empty]).1 = [] :=
  ⟨rfl, rfl, rfl⟩


/-- `append_ctype_information` in closed form: the alias and need of each
deduplicated ctype are appended. -/
theorem append_ctype_information_eq (deps : List (List TypeName))
    (ext : List ForeignItem) (needs : List AdditionalNeed) :
    append_ctype_information deps ext needs
      = (ext ++ (ctypesOf deps).map
            (fun c => ForeignItem.ctypeAlias c.get_final_ident),
         needs ++ (ctypesOf deps).map AdditionalNeed.CTypeTypedef) := by
  rw [append_ctype_information]
  generalize ctypesOf deps = cs
  induction cs generalizing ext needs with
  | nil => simp
  | cons c cs ih => simp [List.foldl_cons, ih]

/-- `codegen` in closed form: global fragments, the optional root container
holding the declaration tree, the bridge-interface block, the re-export
tree; the needs are exactly `final_needs`. -/
theorem codegen_eq (apis : List Api) (incl : List String) (m : UseMap)
    (root : ItemMod) :
    codegen apis incl m root
      = { items := (apis.map (fun a => a.global_items)).flatten
            ++ (if ((generate_final_bindgen_mods m apis).1).isEmpty then []
                else [Item.mod root.name
                       [Item.mod "root" (generate_final_bindgen_mods m apis).1]])
            ++ [final_bridge_block apis incl]
            ++ generate_final_use_statements apis,
          additional_cpp_needs := final_needs apis } := by
  rw [codegen, append_ctype_information_eq]
  by_cases h : ((generate_final_bindgen_mods m apis).1).isEmpty <;>
    simp [h, final_bridge_block, final_foreign_items, final_needs,
      List.append_assoc]

/-! ### Claim C2 -/

/-- C2: the final item list puts the declaration tree (nested in the root
container under a `root` module, present exactly when non-empty) before the
bridge-interface block; the bridge-interface block is always present and
precedes the re-export tree; the re-export tree comes last. -/
theorem generate_code_final_order (apis : List Api) (incl : List String)
    (m : UseMap) (root : ItemMod) :
    ∃ bridge_content,
      (generate_code apis incl m root).items
        = (apis.map (fun a => a.global_items)).flatten
            ++ (if ((generate_final_bindgen_mods m apis).1).isEmpty then []
                else [Item.mod root.name
                       [Item.mod "root" (generate_final_bindgen_mods m apis).1]])
            ++ [Item.bridgeMod bridge_content]
            ++ generate_final_use_statements apis := by
  refine ⟨(apis.map (fun a => a.bridge_items)).flatten
    ++ [make_foreign_mod (final_foreign_items apis incl)], ?_⟩
  rw [generate_code, codegen_eq]
  rfl

/-! ### Claim C3 -/

/-- Membership in `remove_nones` over a projected field. -/
theorem mem_remove_nones_map {α β : Type} (l : List α) (f : α → Option β)
    (x : β) :
    x ∈ remove_nones (l.map f) ↔ ∃ a ∈ l, f a = some x := by
  rw [remove_nones, List.filterMap_map]
  simp [List.mem_filterMap]

/-- Membership in the collected ctype set. -/
theorem mem_ctypesOf (deps : List (List TypeName)) (t : TypeName) :
    t ∈ ctypesOf deps ↔ t ∈ deps.flatten ∧ is_ctype t = true := by
  rw [ctypesOf, List.mem_dedup, List.mem_filter, List.flatMap_id]

/-- Each ctype present in some dependency set occurs exactly once in the
collected set. -/
theorem count_ctypesOf (deps : List (List TypeName)) (t : TypeName)
    (h1 : t ∈ deps.flatten) (h2 : is_ctype t = true) :
    (ctypesOf deps).count t = 1 :=
  List.count_eq_one_of_mem (List.nodup_dedup _)
    ((mem_ctypesOf deps t).mpr ⟨h1, h2⟩)

/-- The known sized types have pairwise distinct final identifiers. -/
theorem knownCTypes_id_inj :
    ∀ t1 ∈ knownCTypes, ∀ t2 ∈ knownCTypes,
      t1.get_final_ident = t2.get_final_ident → t1 = t2 := by
  decide

/-- Two recognized ctypes sharing a final identifier are the same
reference. -/
theorem is_ctype_id_inj (t1 t2 : TypeName) (ht1 : is_ctype t1 = true)
    (ht2 : is_ctype t2 = true)
    (hid : t1.get_final_ident = t2.get_final_ident) : t1 = t2 :=
  knownCTypes_id_inj t1 (of_decide_eq_true ht1) t2 (of_decide_eq_true ht2)
    hid

/-- C3: when at least one record depends on a recognized sized type `t`
(and no record's opaque fragments already smuggle in the very alias or
need this stage would generate), the run emits exactly one `CTypeTypedef`
supplementary need for `t` and exactly one bridge-interface type alias
binding `t`'s local name, however many records depend on `t`; the bridge
block carrying those aliases is part of the emitted items. -/
theorem ctype_single_emission (apis : List Api) (incl : List String)
    (m : UseMap) (root : ItemMod) (t : TypeName)
    (h1 : t ∈ (apis.map (fun a => a.deps)).flatten)
    (h2 : is_ctype t = true)
    (h3 : ∀ a ∈ apis, a.additional_cpp ≠ some (AdditionalNeed.CTypeTypedef t))
    (h4 : ∀ a ∈ apis, a.extern_c_mod_item
            ≠ some (ForeignItem.ctypeAlias t.get_final_ident)) :
    (generate_code apis incl m root).additional_cpp_needs.count
        (AdditionalNeed.CTypeTypedef t) = 1
    ∧ (final_foreign_items apis incl).count
        (ForeignItem.ctypeAlias t.get_final_ident) = 1
    ∧ final_bridge_block apis incl ∈ (generate_code apis incl m root).items := by
  have hcs1 : (ctypesOf (apis.map (fun a => a.deps))).count t = 1 :=
    count_ctypesOf _ t h1 h2
  refine ⟨?_, ?_, ?_⟩
  · rw [generate_code, codegen_eq]
    show (final_needs apis).count _ = 1
    rw [final_needs, List.count_append]
    have hz : (remove_nones (apis.map (fun a => a.additional_cpp))).count
        (AdditionalNeed.CTypeTypedef t) = 0 := by
      rw [List.count_eq_zero]
      intro hmem
      obtain ⟨a, ha, he⟩ := (mem_remove_nones_map _ _ _).mp hmem
      exact h3 a ha he
    rw [hz, List.count_map_of_injective _ _
      (fun x y hxy => by simpa using hxy), hcs1]
  · rw [final_foreign_items, List.count_append, List.count_append]
    have hz1 : (remove_nones (apis.map (fun a => a.extern_c_mod_item))).count
        (ForeignItem.ctypeAlias t.get_final_ident) = 0 := by
      rw [List.count_eq_zero]
      intro hmem
      obtain ⟨a, ha, he⟩ := (mem_remove_nones_map _ _ _).mp hmem
      exact h4 a ha he
    have hz2 : (build_include_foreign_items incl
        (!(final_needs apis).isEmpty)).count
        (ForeignItem.ctypeAlias t.get_final_ident) = 0 := by
      rw [List.count_eq_zero, build_include_foreign_items]
      intro hmem
      obtain ⟨hdr, _, he⟩ := List.mem_map.mp hmem
      cases he
    rw [hz1, hz2]
    have hone : ((ctypesOf (apis.map (fun a => a.deps))).map
        (fun c => ForeignItem.ctypeAlias c.get_final_ident)).count
        (ForeignItem.ctypeAlias t.get_final_ident) = 1 := by
      rw [List.count_eq_countP, List.countP_map]
      refine countP_eq_one_of_unique _ _ t (List.nodup_dedup _)
        ((mem_ctypesOf _ t).mpr ⟨(List.flatMap_id _) ▸ h1, h2⟩) ?_ ?_
      · simp [Function.comp]
      · intro b hb hpb
        have hbct : is_ctype b = true := ((mem_ctypesOf _ b).mp hb).2
        have : b.get_final_ident = t.get_final_ident := by
          simpa [Function.comp] using hpb
        exact is_ctype_id_inj b t hbct h2 this
    rw [hone]
  · rw [generate_code, codegen_eq]
    show final_bridge_block apis incl ∈ _ ++ _ ++ _ ++ _
    simp

/-- C3 witness: two records (one at the root, one in namespace `a`) both
depending on `c_int` yield exactly one need and one alias. -/
theorem ctype_single_emission_witness :
    ((TypeName.new [] "c_int")
        ∈ (([apiDepInt, apiDepIntA]).map (fun a => a.deps)).flatten
      ∧ is_ctype (TypeName.new [] "c_int") = true)
    ∧ ((generate_code [apiDepInt, apiDepIntA] ["foo.h"] []
          ⟨"bindgen", []⟩).additional_cpp_needs.count
            (AdditionalNeed.CTypeTypedef (TypeName.new [] "c_int")) = 1
        ∧ (final_foreign_items [apiDepInt, apiDepIntA] ["foo.h"]).count
            (ForeignItem.ctypeAlias
              (TypeName.new [] "c_int").get_final_ident) = 1
        ∧ final_bridge_block [apiDepInt, apiDepIntA] ["foo.h"]
            ∈ (generate_code [apiDepInt, apiDepIntA] ["foo.h"] []
                ⟨"bindgen", []⟩).items) :=
  ⟨⟨by decide, by decide⟩,
    ctype_single_emission [apiDepInt, apiDepIntA] ["foo.h"] []
      ⟨"bindgen", []⟩ (TypeName.new [] "c_int") (by decide) (by decide)
      (by decide) (by decide)⟩

/-! ### Claim C6 -/

/-- Inclusion directives pass the `is_include` filter unchanged. -/
theorem filter_is_include_map (l : List String) :
    (l.map ForeignItem.includeDirective).filter ForeignItem.is_include
      = l.map ForeignItem.includeDirective := by
  induction l with
  | nil => rfl
  | cons a l ih => simp [ForeignItem.is_include, ih]

/-- C6: provided no record's opaque foreign fragment is itself an inclusion
directive, the bridge interface's foreign-declaration block contains one
inclusion directive per configured header in list order, followed by one
directive for the generated header `autocxxgen.h` exactly when the
supplementary-needs list is non-empty after sized-type shim injection; the
block carrying them is part of the emitted items. -/
theorem include_directive_emission (apis : List Api) (incl : List String)
    (m : UseMap) (root : ItemMod)
    (h : ∀ a ∈ apis, opt_is_include a.extern_c_mod_item = false) :
    (final_foreign_items apis incl).filter ForeignItem.is_include
        = incl.map ForeignItem.includeDirective
          ++ (if (final_needs apis).isEmpty then []
              else [ForeignItem.includeDirective "autocxxgen.h"])
    ∧ final_bridge_block apis incl ∈ (generate_code apis incl m root).items := by
  constructor
  · rw [final_foreign_items, List.filter_append, List.filter_append]
    have hz1 : (remove_nones (apis.map (fun a => a.extern_c_mod_item))).filter
        ForeignItem.is_include = [] := by
      rw [List.filter_eq_nil_iff]
      intro x hx
      obtain ⟨a, ha, he⟩ := (mem_remove_nones_map _ _ _).mp hx
      have := h a ha
      rw [he] at this
      simp only [opt_is_include] at this
      simp [this]
    have hz2 : ((ctypesOf (apis.map (fun a => a.deps))).map
        (fun c => ForeignItem.ctypeAlias c.get_final_ident)).filter
        ForeignItem.is_include = [] := by
      rw [List.filter_eq_nil_iff]
      intro x hx
      obtain ⟨c, _, he⟩ := List.mem_map.mp hx
      subst he
      simp [ForeignItem.is_include]
    rw [hz1, hz2, List.nil_append, List.nil_append]
    by_cases hne : (final_needs apis).isEmpty = true
    · simp [build_include_foreign_items, hne, filter_is_include_map]
    · have hne' : final_needs apis ≠ [] :=
        fun hh => hne (List.isEmpty_iff.mpr hh)
      simp [build_include_foreign_items, filter_is_include_map, hne',
        ForeignItem.is_include]
  · rw [generate_code, codegen_eq]
    show final_bridge_block apis incl ∈ _ ++ _ ++ _ ++ _
    simp

/-- C6 witness: include list `["foo.h"]` and one supplementary need give
exactly two inclusion directives, `foo.h` then `autocxxgen.h`, in that
order. -/
theorem include_directive_emission_witness :
    (∀ a ∈ [apiWithNeed], opt_is_include a.extern_c_mod_item = false)
    ∧ (final_foreign_items [apiWithNeed] ["foo.h"]).filter
        ForeignItem.is_include
        = [ForeignItem.includeDirective "foo.h",
           ForeignItem.includeDirective "autocxxgen.h"]
    ∧ final_bridge_block [apiWithNeed] ["foo.h"]
        ∈ (generate_code [apiWithNeed] ["foo.h"] [] ⟨"bindgen", []⟩).items :=
  ⟨by decide,
   (include_directive_emission [apiWithNeed] ["foo.h"] [] ⟨"bindgen", []⟩
      (by decide)).1.trans (by decide),
   (include_directive_emission [apiWithNeed] ["foo.h"] [] ⟨"bindgen", []⟩
      (by decide)).2⟩

/-! ### Claim C10 -/

/-- Appending an empty-fragment entry never changes what a lookup yields as
a fragment list. -/
theorem lookup_append_empty (m : UseMap) (ns ns2 : NSPath) :
    (lookupNs (m ++ [(ns, [])]) ns2).getD [] = (lookupNs m ns2).getD [] := by
  induction m with
  | nil => by_cases h : ns = ns2 <;> simp [lookupNs, h]
  | cons p m ih => by_cases hp : p.1 = ns2 <;> simp [lookupNs, hp, ih]

/-- Extended maps agree on every fragment list handed out. -/
theorem mapExt_getD (ns : NSPath) (m1 m2 : UseMap) (h : mapExt ns m1 m2)
    (ns2 : NSPath) :
    (lookupNs m1 ns2).getD [] = (lookupNs m2 ns2).getD [] := by
  rcases h with rfl | ⟨rfl, _⟩
  · rfl
  · exact (lookup_append_empty m1 ns ns2).symm

/-- Removing an absent key is the identity. -/
theorem eraseNs_of_lookup_none (m : UseMap) (ns : NSPath)
    (h : lookupNs m ns = none) : eraseNs m ns = m := by
  induction m with
  | nil => rfl
  | cons p m ih =>
    rw [lookupNs] at h
    by_cases hp : p.1 = ns
    · rw [if_pos hp] at h
      cases h
    · rw [if_neg hp] at h
      rw [eraseNs, if_neg hp, ih h]

/-- Removing the appended empty entry recovers the original map. -/
theorem eraseNs_append_empty_self (m : UseMap) (ns : NSPath)
    (h : lookupNs m ns = none) : eraseNs (m ++ [(ns, [])]) ns = m := by
  induction m with
  | nil =>
    show eraseNs [(ns, [])] ns = []
    rw [eraseNs, if_pos rfl]
  | cons p m ih =>
    rw [lookupNs] at h
    by_cases hp : p.1 = ns
    · rw [if_pos hp] at h
      cases h
    · rw [if_neg hp] at h
      rw [List.cons_append, eraseNs, if_neg hp, ih h]

/-- Removing a different key commutes with the appended empty entry. -/
theorem eraseNs_append_empty_other (m : UseMap) (ns ns2 : NSPath)
    (hne : ns2 ≠ ns) :
    eraseNs (m ++ [(ns, [])]) ns2 = eraseNs m ns2 ++ [(ns, [])] := by
  induction m with
  | nil =>
    show eraseNs [(ns, [])] ns2 = _
    simp [eraseNs, Ne.symm hne]
  | cons p m ih => by_cases hp : p.1 = ns2 <;> simp [eraseNs, hp, ih]

/-- A removal never makes an absent key present. -/
theorem lookup_eraseNs_none (m : UseMap) (ns ns2 : NSPath)
    (h : lookupNs m ns = none) : lookupNs (eraseNs m ns2) ns = none := by
  induction m with
  | nil => rfl
  | cons p m ih =>
    rw [lookupNs] at h
    by_cases hp1 : p.1 = ns
    · rw [if_pos hp1] at h
      cases h
    · rw [if_neg hp1] at h
      rw [eraseNs]
      by_cases hp2 : p.1 = ns2
      · rw [if_pos hp2]
        exact h
      · rw [if_neg hp2, lookupNs, if_neg hp1]
        exact ih h

/-- The map-extension relation is preserved by removals. -/
theorem mapExt_erase (ns : NSPath) (m1 m2 : UseMap) (h : mapExt ns m1 m2)
    (ns2 : NSPath) : mapExt ns (eraseNs m1 ns2) (eraseNs m2 ns2) := by
  rcases h with rfl | ⟨rfl, hn⟩
  · exact Or.inl rfl
  · by_cases hns : ns2 = ns
    · subst hns
      rw [eraseNs_of_lookup_none _ _ hn, eraseNs_append_empty_self _ _ hn]
      exact Or.inl rfl
    · rw [eraseNs_append_empty_other _ _ _ hns]
      exact Or.inr ⟨rfl, lookup_eraseNs_none _ _ _ hn⟩

/-- `append_uses_for_ns` appends the same fragments under extended maps and
preserves the extension. -/
theorem append_uses_mapExt (ns : NSPath) (m1 m2 : UseMap)
    (h : mapExt ns m1 m2) (items : List Item) (ns2 : NSPath) :
    (append_uses_for_ns m1 items ns2).1 = (append_uses_for_ns m2 items ns2).1
    ∧ mapExt ns (append_uses_for_ns m1 items ns2).2
        (append_uses_for_ns m2 items ns2).2 := by
  refine ⟨?_, mapExt_erase ns m1 m2 h ns2⟩
  show items ++ _ = items ++ _
  rw [mapExt_getD ns m1 m2 h ns2]

/-- The declaration-tree walker emits the same items under extended maps
and preserves the extension. -/
theorem acbn_mapExt (ns : NSPath) (fuel : Nat) :
    ∀ (ne : NamespaceEntries) (out : List Item) (ns0 : NSPath)
      (m1 m2 : UseMap), mapExt ns m1 m2 →
      (append_child_bindgen_namespace fuel m1 ne out ns0).1
        = (append_child_bindgen_namespace fuel m2 ne out ns0).1
      ∧ mapExt ns (append_child_bindgen_namespace fuel m1 ne out ns0).2
          (append_child_bindgen_namespace fuel m2 ne out ns0).2 := by
  induction fuel with
  | zero => exact fun ne out ns0 m1 m2 h => ⟨rfl, h⟩
  | succ fuel ih =>
    intro ne out ns0 m1 m2 h
    cases ne with
    | mk entries children =>
      simp only [append_child_bindgen_namespace, NamespaceEntries.entries,
        NamespaceEntries.children]
      generalize (entries.foldl
        (fun (acc : List Item × List (String × List ImplItem)) item =>
          let o := acc.1 ++ item.bindgen_mod_item.toList
          match item.impl_entry with
          | some e => (o, addImplEntry acc.2 item.id e)
          | none => (o, acc.2))
        (out, [])) = folded
      generalize (folded.2.foldl
        (fun out p => out ++ [Item.implBlock p.1 p.2]) folded.1) = o
      clear folded
      induction children generalizing o m1 m2 with
      | nil => exact ⟨rfl, h⟩
      | cons c cs ihc =>
        rw [List.foldl_cons, List.foldl_cons]
        obtain ⟨hi, hm⟩ := ih c.2 [] (ns0 ++ [c.1]) m1 m2 h
        simp only [bindgen_child_step]
        by_cases he : (append_child_bindgen_namespace fuel m1 c.2 []
            (ns0 ++ [c.1])).1.isEmpty
        · rw [if_pos he, if_pos (hi ▸ he)]
          exact ihc _ _ hm _
        · rw [if_neg he, if_neg (hi ▸ he)]
          obtain ⟨hu, hm2⟩ := append_uses_mapExt ns _ _ hm
            (append_child_bindgen_namespace fuel m1 c.2 []
              (ns0 ++ [c.1])).1 (ns0 ++ [c.1])
          rw [← hi, hu]
          exact ihc _ _ hm2 _

/-- C10: a namespace absent from the use-fragment map behaves exactly like
one mapped to the empty fragment list: `generate_code` neither fails nor
changes any other part of its output. -/
theorem use_map_missing_ns (apis : List Api) (incl : List String)
    (root : ItemMod) (m : UseMap) (ns : NSPath)
    (h : lookupNs m ns = none) :
    generate_code apis incl m root
      = generate_code apis incl (m ++ [(ns, [])]) root := by
  have hext : mapExt ns m (m ++ [(ns, [])]) := Or.inr ⟨rfl, h⟩
  obtain ⟨hi, hm⟩ := acbn_mapExt ns (nsFuel apis) (NamespaceEntries.new apis)
    [] [] m (m ++ [(ns, [])]) hext
  have hbind : (generate_final_bindgen_mods m apis).1
      = (generate_final_bindgen_mods (m ++ [(ns, [])]) apis).1 := by
    show (append_uses_for_ns _ _ []).1 = (append_uses_for_ns _ _ []).1
    show _ ++ _ = _ ++ _
    rw [hi, mapExt_getD ns _ _ hm []]
  rw [generate_code, generate_code, codegen_eq, codegen_eq, hbind]

/-- C10 witness: adding an explicit empty entry for the unmapped namespace
`zz` leaves the whole result unchanged. -/
theorem use_map_missing_ns_witness :
    lookupNs ([] : UseMap) ["zz"] = none
    ∧ generate_code [apiUnusedA] ["foo.h"] [] ⟨"bindgen", []⟩
        = generate_code [apiUnusedA] ["foo.h"] ([] ++ [(["zz"], [])])
            ⟨"bindgen", []⟩ :=
  ⟨rfl, use_map_missing_ns [apiUnusedA] ["foo.h"] ⟨"bindgen", []⟩ [] ["zz"]
    rfl⟩

end Autocxx
